import Mathlib

/-!
Verification of the AssppWeb backend (Rust) against its natural-language
specification.  The relevant Rust code is shallowly embedded below:
pure data and control flow are translated to Lean functions; filesystem,
network and archive effects are made explicit through state values and
outcome parameters.  Machine integers are modelled by `Nat`/`Int`; the
one floating-point computation (streamed progress percent) is modelled
over `ℚ` with the same rounding and `as u8` saturation behaviour.

The crate `asspp-core` modules `types`, `download`, `security`, `sinf`,
`wisp` and `plist_util` are not part of the available sources (only their
callers are); definitions drawn from them are marked
`Modelled from the spec:` and follow the specification text.  Everything
else is translated directly from the Rust sources in
`crates/asspp-standalone` and `crates/asspp-worker`.
-/

namespace Asspp

/-- Modelled from the spec: `TaskStatus` (spec section 3, module
`asspp_core::types` missing from the sources) — the closed set
{Queued, Downloading, Paused, Injecting, Completed, Failed}. -/
inductive TaskStatus where
  | queued
  | downloading
  | paused
  | injecting
  | completed
  | failed
deriving DecidableEq, Repr

/-- Modelled from the spec: software descriptor
{name, version, bundle_id, artwork_url} (spec section 3). -/
structure Software where
  name : String
  version : String
  bundle_id : String
  artwork_url : String
deriving DecidableEq, Repr

/-- Modelled from the spec: one SINF tuple {id (integer), sinf (base64
string)} (spec section 3). -/
structure Sinf where
  id : Int
  sinf : String
deriving DecidableEq, Repr

/-- Modelled from the spec: the central `DownloadTask` record
(spec section 3; module `asspp_core::types` missing from the sources). -/
structure DownloadTask where
  id : String
  software : Software
  account_hash : String
  download_url : String
  sinfs : List Sinf
  itunes_metadata : Option String
  status : TaskStatus
  progress : Nat
  speed : String
  error : Option String
  file_path : Option String
  created_at : Nat
deriving DecidableEq, Repr

/-- The three secret fields are cleared: empty URL, empty sinf list,
no metadata (spec section 3, invariants). -/
def secretsCleared (t : DownloadTask) : Prop :=
  t.download_url = "" ∧ t.sinfs = [] ∧ t.itunes_metadata = none

instance (t : DownloadTask) : Decidable (secretsCleared t) := by
  unfold secretsCleared; infer_instance

/-- Modelled from the spec: the sanitised projection for client
responses (spec section 4.G, `sanitize`): it omits `download_url`,
`sinfs` and `itunes_metadata` and includes a derived `file_exists`
boolean.  The structure has no field for any of the three secrets. -/
structure SanitizedTask where
  id : String
  software : Software
  account_hash : String
  status : TaskStatus
  progress : Nat
  speed : String
  error : Option String
  file_path : Option String
  created_at : Nat
  file_exists : Bool
deriving DecidableEq, Repr

/-- Modelled from the spec: `sanitize(task, file_exists)`
(spec section 4.G). -/
def DownloadTask.sanitize (t : DownloadTask) (file_exists : Bool) : SanitizedTask :=
  { id := t.id
    software := t.software
    account_hash := t.account_hash
    status := t.status
    progress := t.progress
    speed := t.speed
    error := t.error
    file_path := t.file_path
    created_at := t.created_at
    file_exists := file_exists }

/-- Modelled from the spec: the persisted projection `to_persisted`
(spec section 4.G): only for Completed tasks with `file_path` set;
omits the secrets identically to `sanitize`. -/
structure PersistedTask where
  id : String
  software : Software
  account_hash : String
  status : TaskStatus
  progress : Nat
  file_path : Option String
  created_at : Nat
deriving DecidableEq, Repr

/-- Modelled from the spec: projection of a task to its persisted
record (spec section 4.G). -/
def DownloadTask.to_persisted (t : DownloadTask) : PersistedTask :=
  { id := t.id
    software := t.software
    account_hash := t.account_hash
    status := t.status
    progress := t.progress
    file_path := t.file_path
    created_at := t.created_at }

/-- Modelled from the spec: the create-request body
{software, accountHash, downloadUrl, sinfs, iTunesMetadata?}
(spec sections 4.G and 6). -/
structure CreateDownloadRequest where
  software : Software
  account_hash : String
  download_url : String
  sinfs : List Sinf
  itunes_metadata : Option String
deriving DecidableEq, Repr

/-- Modelled from the spec: `new_task(request)` (spec section 4.G)
builds a fresh id and timestamp and an initial record; per the
lifecycle (spec section 3) a brief Queued state may be observed
between registration and spawn, so the initial status is Queued. -/
def new_task (req : CreateDownloadRequest) (fresh_id : String) (now : Nat) : DownloadTask :=
  { id := fresh_id
    software := req.software
    account_hash := req.account_hash
    download_url := req.download_url
    sinfs := req.sinfs
    itunes_metadata := req.itunes_metadata
    status := .queued
    progress := 0
    speed := "0 B/s"
    error := none
    file_path := none
    created_at := now }

/-- Modelled from the spec: `MAX_DOWNLOAD_SIZE` = 4 GiB
(spec sections 4.A and 5; module `asspp_core::security` missing from
the sources). -/
def MAX_DOWNLOAD_SIZE : Nat := 4 * 1024 * 1024 * 1024

/-!
## Task-record mutations of the download engine

`TaskStep` enumerates every in-place mutation of a task record
performed by `crates/asspp-standalone/src/services/download_manager.rs`:

* `setDownloading` — `start_download` lines 128-140;
* `setFilePath`    — `start_download` lines 184-190;
* `setTelemetry`   — the streaming loop, lines 278-284;
* `pause`          — `pause_task` lines 30-49 (guarded on Downloading);
* `fail`           — `fail_task` lines 346-355;
* `setInjecting`   — `start_download` lines 315-322;
* `complete`       — `start_download` lines 330-341 (sets Completed,
  progress 100, and clears the three secrets).
-/
inductive TaskStep : DownloadTask → DownloadTask → Prop where
  | setDownloading (t : DownloadTask) :
      TaskStep t { t with status := .downloading, progress := 0,
                          speed := "0 B/s", error := none }
  | setFilePath (t : DownloadTask) (p : String) :
      TaskStep t { t with file_path := some p }
  | setTelemetry (t : DownloadTask) (sp : String) (pr : Nat) :
      TaskStep t { t with speed := sp, progress := pr }
  | pause (t : DownloadTask) (h : t.status = .downloading) :
      TaskStep t { t with status := .paused }
  | fail (t : DownloadTask) :
      TaskStep t { t with status := .failed, error := some "Download failed" }
  | setInjecting (t : DownloadTask) :
      TaskStep t { t with status := .injecting, progress := 100 }
  | complete (t : DownloadTask) :
      TaskStep t { t with status := .completed, progress := 100,
                          download_url := "", sinfs := [],
                          itunes_metadata := none }

/-- A task record reachable by the engine: created by `new_task`,
restored by the startup loader (always normalised, see `load_record`
below), or obtained from a reachable record by one engine mutation. -/
inductive ReachableTask : DownloadTask → Prop where
  | created (req : CreateDownloadRequest) (fresh_id : String) (now : Nat) :
      ReachableTask (new_task req fresh_id now)
  | loaded (t : DownloadTask) :
      t.status = .completed → t.progress = 100 → secretsCleared t →
      ReachableTask t
  | step (t t' : DownloadTask) : ReachableTask t → TaskStep t t' →
      ReachableTask t'

/-!
## Startup task loading (`state.rs`, `load_tasks`, lines 35-81)

One element of the persisted JSON array is modelled by `RawItem`:
the three string accessors correspond to
`item.get("id"/"status"/"filePath").and_then(as_str)` (absent key or
non-string value both yield `none`), and `decoded` is the result of
`serde_json::from_value::<DownloadTask>(item)` (`none` on schema
failure).  File existence is an environment function.
-/
structure RawItem where
  idField : Option String
  statusField : Option String
  filePathField : Option String
  decoded : Option DownloadTask

/-- The body of the loading loop in `load_tasks` (`state.rs` lines
48-78) for one record: `some task` when the record is inserted
(already normalised), `none` when it is skipped. -/
def load_record (fileExists : String → Bool) (item : RawItem) : Option DownloadTask :=
  let id := item.idField.getD ""
  let status := item.statusField.getD ""
  let file_path := item.filePathField.getD ""
  if id = "" ∨ status ≠ "completed" ∨ file_path = "" then none
  else if !fileExists file_path then none
  else
    item.decoded.map fun t =>
      { t with status := .completed, progress := 100, speed := "0 B/s",
               download_url := "", sinfs := [], itunes_metadata := none }

/-- The in-memory task map, keyed by task id
(`HashMap<String, DownloadTask>`). -/
abbrev TaskMap := List (String × DownloadTask)

/-- `HashMap::get`. -/
def TaskMap.find (m : TaskMap) (id : String) : Option DownloadTask :=
  (m.find? (fun kv => kv.1 = id)).map (·.2)

/-- `HashMap::insert` (replaces an existing binding for the key). -/
def TaskMap.insert (m : TaskMap) (id : String) (t : DownloadTask) : TaskMap :=
  (id, t) :: m.filter (fun kv => kv.1 ≠ id)

/-- `HashMap::remove` (drops the binding for the key). -/
def TaskMap.erase (m : TaskMap) (id : String) : TaskMap :=
  m.filter (fun kv => kv.1 ≠ id)

/-- `load_tasks` (`state.rs` lines 35-81): fold the persisted array,
inserting every record the loop body accepts under the decoded id. -/
def load_tasks (fileExists : String → Bool) (items : List RawItem) : TaskMap :=
  items.foldl
    (fun m item =>
      match load_record fileExists item with
      | some t => m.insert t.id t
      | none => m)
    []

/-!
## Download routes (`routes/downloads.rs`) and package file route
(`routes/packages.rs`)
-/

/-- HTTP outcomes relevant to the embedded handlers; `ok` carries the
endpoint-specific success body. -/
inductive ApiResponse (α : Type) where
  | badRequest (msg : String)
  | notFound (msg : String)
  | forbidden (msg : String)
  | ok (body : α)
deriving DecidableEq, Repr

/-- `require_account_hash` (`routes/downloads.rs` lines 43-57): take
the query hash, fall back to the body hash, default to empty; reject
with 400 when shorter than 8 bytes (Rust `str::len` counts bytes). -/
def require_account_hash (query_hash : Option String) (body_hash : Option String) :
    Except (ApiResponse SanitizedTask) String :=
  let hash := ((query_hash.or body_hash).getD "")
  if hash.utf8ByteSize < 8 then
    .error (.badRequest "Missing or invalid accountHash parameter")
  else
    .ok hash

/-- `verify_ownership` (`routes/downloads.rs` lines 59-67): byte-exact
string comparison of the stored hash against the supplied one. -/
def verify_ownership (task_hash : String) (hash : String) :
    Except (ApiResponse SanitizedTask) Unit :=
  if task_hash ≠ hash then .error (.forbidden "Access denied")
  else .ok ()

/-- `get_download` (`routes/downloads.rs` lines 122-141).
`fileExists` models `std::path::Path::new(p).exists()`. -/
def get_download (tasks : TaskMap) (id : String) (query_hash : Option String)
    (fileExists : String → Bool) : ApiResponse SanitizedTask :=
  match require_account_hash query_hash none with
  | .error e => e
  | .ok hash =>
    match tasks.find id with
    | none => .notFound "Download not found"
    | some task =>
      match verify_ownership task.account_hash hash with
      | .error e => e
      | .ok _ =>
        let file_exists := (task.file_path.map fileExists).getD false
        .ok (task.sanitize file_exists)

/-- Success body of `download_file`: the streamed attachment. -/
structure FileResponse where
  filename : String
  content_length : Nat
deriving DecidableEq, Repr

/-- Filesystem environment for `download_file`: results of
`std::fs::canonicalize`, `tokio::fs::metadata` and file open. -/
structure FileEnv where
  canonPath : String → Option (List String)
  canonBase : Option (List String)
  fileSize : List String → Option Nat
  openOk : List String → Bool

/-- Modelled from the spec: `sanitize_filename` (spec section 4.A;
module `asspp_core::security` missing from the sources) — retain
alphanumeric, dot, underscore, hyphen; replace other characters by
underscores.  (Run collapsing and length capping are irrelevant to the
claims and are not modelled.) -/
def sanitize_filename (s : String) : String :=
  String.map (fun c =>
    if c.isAlphanum ∨ c = '.' ∨ c = '_' ∨ c = '-' then c else '_') s

/-- Modelled from the spec: `path_within_base(candidate, base)`
(spec section 4.A) — true iff the canonicalised candidate has the
canonicalised base as a path prefix at the component boundary.  Both
arguments are already canonical component lists here. -/
def path_within_base (candidate : List String) (base : List String) : Bool :=
  base.isPrefixOf candidate

/-- `download_file` (`routes/packages.rs` lines 77-171): length check
on the query hash, lookup of a Completed task with the id, byte-exact
ownership check, then path-safety and streaming. -/
def download_file (tasks : List DownloadTask) (id : String)
    (query_hash : Option String) (env : FileEnv) : ApiResponse FileResponse :=
  let account_hash := query_hash.getD ""
  if account_hash.utf8ByteSize < 8 then
    .badRequest "Missing or invalid accountHash"
  else
    match tasks.find? (fun t => t.id = id ∧ t.status = .completed) with
    | none => .notFound "Package not found"
    | some task =>
      if task.account_hash ≠ account_hash then .forbidden "Access denied"
      else
        match task.file_path with
        | none => .notFound "Package not found"
        | some file_path =>
          match env.canonPath file_path with
          | none => .notFound "Package not found"
          | some resolved =>
            match env.canonBase with
            | none => .notFound "Package not found"
            | some packages_base =>
              if ¬ path_within_base resolved packages_base then
                .forbidden "Access denied"
              else
                match env.fileSize resolved with
                | none => .notFound "Package not found"
                | some len =>
                  if ¬ env.openOk resolved then .notFound "Package not found"
                  else
                    .ok { filename :=
                            sanitize_filename task.software.name ++ "_" ++
                            sanitize_filename task.software.version ++ ".ipa"
                          content_length := len }

/-!
## Streamed progress computation
(`services/download_manager.rs` lines 272-276)

`((downloaded as f64 / content_length as f64) * 100.0).round() as u8`
is modelled over `ℚ`: for the integer ranges involved the quotient is
represented exactly enough that every claim below also holds of the
`f64` computation, and `round` on nonnegative values agrees with
Rust's round-half-away-from-zero.  The `as u8` cast saturates at 255.
-/
def stream_progress (downloaded content_length : Nat) : Nat :=
  if content_length > 0 then
    min 255 (round ((downloaded : ℚ) / (content_length : ℚ) * 100)).toNat
  else 0

/-!
## SINF injection (`services/sinf_injector.rs`)

The filesystem is modelled as an association list from path to file
content; an IPA file's content is its list of archive entries
(name, bytes).  External failure points (file creation, raw entry
copy, appended-entry write, archive finish, rename) are supplied as an
outcome environment so that every failure interleaving is covered.
-/

/-- Content of a ZIP archive: entries in order, name and bytes. -/
abbrev ZipContent := List (String × List Nat)

/-- Filesystem for the rewriter: path ↦ archive content. -/
abbrev ZipFS := List (String × ZipContent)

def ZipFS.lookup (fs : ZipFS) (p : String) : Option ZipContent :=
  (fs.find? (fun kv => kv.1 = p)).map (·.2)

/-- Create/overwrite a file. -/
def ZipFS.write (fs : ZipFS) (p : String) (c : ZipContent) : ZipFS :=
  (p, c) :: fs.filter (fun kv => kv.1 ≠ p)

/-- Remove a file. -/
def ZipFS.remove (fs : ZipFS) (p : String) : ZipFS :=
  fs.filter (fun kv => kv.1 ≠ p)

/-- `std::fs::rename(src, dst)`: the destination receives the source's
content and the source disappears. -/
def ZipFS.rename (fs : ZipFS) (src dst : String) : ZipFS :=
  match fs.lookup src with
  | none => fs
  | some c => (fs.remove src).write dst c

/-- Outcomes of the fallible I/O steps inside `rewrite_zip`
(`services/sinf_injector.rs` lines 130-178). -/
structure ZipEnv where
  /-- `File::create(tmp_path)` succeeds. -/
  createOk : Bool
  /-- `raw_copy_file` succeeds for the named input entry. -/
  copyOk : String → Bool
  /-- `start_file` succeeds for the named appended entry. -/
  startOk : String → Bool
  /-- `write_all` succeeds for the named appended entry. -/
  writeOk : String → Bool
  /-- `ZipWriter::finish` succeeds. -/
  finishOk : Bool
  /-- The final `std::fs::rename` succeeds. -/
  renameOk : Bool

/-- Copy phase of `rewrite_zip` (lines 144-156): iterate the input
archive's entries in order; skip entries whose name is in the
injection set; raw-copy the rest, appending to the temp archive;
stop with an error when a copy fails.  Returns the entries written
so far paired with the error, or the full copied list. -/
def copy_entries (env : ZipEnv) (inject_paths : List String) :
    List (String × List Nat) → Except (String × ZipContent) ZipContent
  | [] => .ok []
  | (name, data) :: rest =>
    if name ∈ inject_paths then copy_entries env inject_paths rest
    else if env.copyOk name then
      match copy_entries env inject_paths rest with
      | .ok tail => .ok ((name, data) :: tail)
      | .error (msg, tail) => .error (msg, (name, data) :: tail)
    else .error ("Copy entry: " ++ name, [])

/-- Append phase of `rewrite_zip` (lines 158-169): `start_file` then
`write_all` for each planned entry, in plan order. -/
def append_entries (env : ZipEnv) :
    List (String × List Nat) → Except (String × ZipContent) ZipContent
  | [] => .ok []
  | (path, data) :: rest =>
    if ¬ env.startOk path then .error ("Start file: " ++ path, [])
    else if ¬ env.writeOk path then .error ("Write: " ++ path, [])
    else
      match append_entries env rest with
      | .ok tail => .ok ((path, data) :: tail)
      | .error (msg, tail) => .error (msg, (path, data) :: tail)

/-- `rewrite_zip` (`services/sinf_injector.rs` lines 130-178): create
`<ipa>.tmp`, raw-copy every input entry not in the plan's path set,
append the plan's entries Stored, finish, and atomically rename the
temp archive over the original.  On failure the temp file is left
behind in whatever state it reached (the code does not delete it) and
the error is surfaced. -/
def rewrite_zip (fs : ZipFS) (ipa_path : String) (entries : ZipContent)
    (plan : List (String × List Nat)) (env : ZipEnv) :
    Except String Unit × ZipFS :=
  let tmp_path := ipa_path ++ ".tmp"
  if ¬ env.createOk then (.error "Create temp", fs)
  else
    let inject_paths := plan.map (·.1)
    match copy_entries env inject_paths entries with
    | .error (msg, partial_content) =>
        (.error msg, fs.write tmp_path partial_content)
    | .ok copied =>
      match append_entries env plan with
      | .error (msg, appended) =>
          (.error msg, fs.write tmp_path (copied ++ appended))
      | .ok appended =>
        let full := copied ++ appended
        if ¬ env.finishOk then (.error "Finish ZIP", fs.write tmp_path full)
        else if ¬ env.renameOk then (.error "Rename", fs.write tmp_path full)
        else (.ok (), (fs.write tmp_path full).rename tmp_path ipa_path)

/-- Modelled from the spec: the injection source (spec section 4.E;
module `asspp_core::sinf` missing from the sources) — either the
`SinfPaths` array of `Manifest.plist` or the `CFBundleExecutable`
of `Info.plist`. -/
inductive InjectionSource where
  | manifest (sinf_paths : List String)
  | info (bundle_executable : String)
deriving DecidableEq, Repr

/-- Modelled from the spec: the injection plan, an ordered list of
(archive-path, bytes) pairs (spec section 4.E). -/
structure InjectionPlan where
  files : List (String × List Nat)
deriving DecidableEq, Repr

/-- Modelled from the spec: `plan_injection` (spec section 4.E).
With a Manifest source, each SINF tuple in input order is paired with
the corresponding `SinfPaths[i]` and excess tuples are dropped; with
an Info source a single synthesised path takes the first tuple only;
if `itunes_metadata` is provided an `iTunesMetadata.plist` entry is
appended. -/
def plan_injection (bundle_name : String) (source : InjectionSource)
    (sinf_data : List (Int × List Nat)) (metadata : Option (List Nat)) :
    InjectionPlan :=
  let sinf_files : List (String × List Nat) :=
    match source with
    | .manifest sinf_paths =>
        (sinf_paths.zip sinf_data).map (fun pd => (pd.1, pd.2.2))
    | .info bundle_executable =>
        match sinf_data with
        | [] => []
        | (_, data) :: _ =>
            [("Payload/" ++ bundle_name ++ ".app/SC_Info/" ++
              bundle_executable ++ ".sinf", data)]
  let meta_files : List (String × List Nat) :=
    match metadata with
    | some m => [("iTunesMetadata.plist", m)]
    | none => []
  { files := sinf_files ++ meta_files }

/-- Environment for `inject_sync`: results of the read-only steps that
precede the rewrite (archive open, bundle-name discovery, injection
source resolution, base64 decoding of SINFs, metadata decoding),
plus the rewrite outcomes. -/
structure InjectEnv where
  /-- `File::open` + `ZipArchive::new` succeed. -/
  openOk : Bool
  /-- `find_bundle_name` result. -/
  bundleName : Option String
  /-- `find_injection_source` result. -/
  source : Option InjectionSource
  /-- Decoded (id, bytes) for each SINF; `none` when some base64
  decode fails. -/
  sinfData : Option (List (Int × List Nat))
  /-- Decoded metadata bytes when `itunes_metadata` is supplied;
  `some none` = decode failure. -/
  metadata : Option (Option (List Nat))
  zip : ZipEnv

/-- `inject_sync` (`services/sinf_injector.rs` lines 23-74): open the
archive, find the bundle, resolve the injection source, decode the
SINFs and metadata, plan; when the plan is empty return success with
no filesystem effect, otherwise run `rewrite_zip`. -/
def inject_sync (fs : ZipFS) (ipa_path : String) (env : InjectEnv) :
    Except String Unit × ZipFS :=
  if ¬ env.openOk then (.error "Open IPA", fs)
  else
    match fs.lookup ipa_path with
    | none => (.error "Read ZIP", fs)
    | some entries =>
      match env.bundleName with
      | none => (.error "Could not read bundle name", fs)
      | some bundle_name =>
        match env.source with
        | none => (.error "Could not read manifest or info plist", fs)
        | some source =>
          match env.sinfData with
          | none => (.error "Decode sinf", fs)
          | some sinf_data =>
            match env.metadata with
            | some none => (.error "Decode metadata", fs)
            | metadata_outer =>
              let metadata_binary := metadata_outer.bind id
              let plan := plan_injection bundle_name source sinf_data metadata_binary
              if plan.files.isEmpty then (.ok (), fs)
              else rewrite_zip fs ipa_path entries plan.files env.zip

/-!
## Orphan sweeper (`state.rs`, `clean_orphaned_packages` lines 83-104
and `walk_and_clean` lines 145-169)

The packages root is a forest of entries; a file carries the canonical
path `std::fs::canonicalize` yields for it (with the code's fallback
to the raw path when canonicalisation fails).  `walk_and_clean`
deletes every file whose canonical path is not in the known set,
recurses into directories, and removes a directory that is empty
after its children were processed.
-/
inductive FsEntry where
  | file (name : String) (canonical : String)
  | dir (name : String) (children : List FsEntry)

mutual

/-- `walk_and_clean` acting on one entry: `none` when the entry is
deleted, `some` with the cleaned entry otherwise. -/
def walk_and_clean_entry (known : List String) : FsEntry → Option FsEntry
  | .file name canonical =>
      if canonical ∈ known then some (.file name canonical) else none
  | .dir name children =>
      match walk_and_clean known children with
      | [] => none
      | cleaned => some (.dir name cleaned)

/-- `walk_and_clean` (`state.rs` lines 145-169) on the entry list of
one directory. -/
def walk_and_clean (known : List String) : List FsEntry → List FsEntry
  | [] => []
  | e :: es =>
      match walk_and_clean_entry known e with
      | some e' => e' :: walk_and_clean known es
      | none => walk_and_clean known es

end

mutual

/-- Canonical paths of the files in one entry, depth-first. -/
def filesOfEntry : FsEntry → List String
  | .file _ canonical => [canonical]
  | .dir _ children => filesOfForest children

/-- Canonical paths of all files in a forest. -/
def filesOfForest : List FsEntry → List String
  | [] => []
  | e :: es => filesOfEntry e ++ filesOfForest es

end

mutual

/-- No directory in this entry is empty. -/
def noEmptyDirEntry : FsEntry → Prop
  | .file _ _ => True
  | .dir _ children => children ≠ [] ∧ noEmptyDirForest children

/-- No directory in this forest is empty. -/
def noEmptyDirForest : List FsEntry → Prop
  | [] => True
  | e :: es => noEmptyDirEntry e ∧ noEmptyDirForest es

end

/-- Canonical file paths of an optional entry (deleted entries
contribute nothing). -/
def filesOfOpt : Option FsEntry → List String
  | none => []
  | some e => filesOfEntry e

/-!
## Wisp session (`routes/wisp.rs` standalone and
`durable_objects/wisp_proxy.rs` worker)

Frames are modelled by their semantic content; the byte encoders
`make_continue_packet` / `make_close_packet` / `make_data_packet` of
the missing `asspp_core::wisp` module (spec section 4.C) are
abstracted into the constructors below.  Each handler is a function
from its external outcomes to the ordered list of frames it attempts
to send on the WebSocket.
-/

/-- Modelled from the spec: CLOSE reasons (spec section 4.C). -/
inductive CloseReason where
  | voluntary
  | networkError
  | invalidData
  | forbidden
  | serverRefused
deriving DecidableEq, Repr

/-- A server-emitted Wisp frame (semantic content of the packet the
byte encoder would produce). -/
inductive Frame where
  | continueFrame (stream_id : Nat) (buffer_remaining : Nat)
  | closeFrame (stream_id : Nat) (reason : CloseReason)
  | dataFrame (stream_id : Nat) (payload : List Nat)
deriving DecidableEq, Repr

/-- External outcomes of one CONNECT in the standalone server. -/
structure ConnectOutcome where
  /-- `wisp::parse_connect` succeeds. -/
  parseOk : Bool
  /-- `wisp::validate_wisp_target` succeeds. -/
  validateOk : Bool
  /-- `TcpStream::connect` succeeds. -/
  dialOk : Bool

/-- The standalone CONNECT path: `handle_wisp`'s CONNECT arm
(`routes/wisp.rs` lines 52-89) followed by the dial prologue of
`handle_tcp_stream` (lines 121-132).  Returns the attempted frames in
order and whether the stream is still registered in the `streams` map
once the dial has settled.  The handler registers the write half and
sends CONTINUE(stream, 128) before the dial; the spawned task removes
the registration and sends CLOSE(ServerRefused) when the dial fails. -/
def handle_connect_standalone (stream_id : Nat) (o : ConnectOutcome) :
    List Frame × Bool :=
  if ¬ o.parseOk then ([.closeFrame stream_id .invalidData], false)
  else if ¬ o.validateOk then ([.closeFrame stream_id .forbidden], false)
  else if o.dialOk then ([.continueFrame stream_id 128], true)
  else ([.continueFrame stream_id 128, .closeFrame stream_id .serverRefused], false)

/-- External outcomes of one CONNECT in the worker durable object. -/
structure WorkerConnectOutcome where
  /-- `wisp::parse_connect` succeeds. -/
  parseOk : Bool
  /-- `wisp::validate_wisp_target` succeeds. -/
  validateOk : Bool
  /-- `worker_sys::connect` succeeds. -/
  dialOk : Bool
  /-- `socket.readable()` succeeds. -/
  readableOk : Bool
  /-- `socket.writable()` succeeds. -/
  writableOk : Bool
  /-- `writable.get_writer()` succeeds. -/
  writerOk : Bool

/-- The worker CONNECT path: `WispProxy::handle_connect`
(`durable_objects/wisp_proxy.rs` lines 107-193).  Returns the
attempted frames in order and whether the stream ends up registered:
the write half is stored and CONTINUE(stream, 128) is sent only after
the dial and stream setup all succeed; any failure sends
CLOSE(ServerRefused) (or InvalidData / Forbidden earlier) and never a
CONTINUE. -/
def handle_connect_worker (stream_id : Nat) (o : WorkerConnectOutcome) :
    List Frame × Bool :=
  if ¬ o.parseOk then ([.closeFrame stream_id .invalidData], false)
  else if ¬ o.validateOk then ([.closeFrame stream_id .forbidden], false)
  else if ¬ o.dialOk then ([.closeFrame stream_id .serverRefused], false)
  else if ¬ o.readableOk then ([.closeFrame stream_id .serverRefused], false)
  else if ¬ o.writableOk then ([.closeFrame stream_id .serverRefused], false)
  else if ¬ o.writerOk then ([.closeFrame stream_id .serverRefused], false)
  else ([.continueFrame stream_id 128], true)

/-- One observation of the standalone reverse relay's TCP read
(`routes/wisp.rs` lines 138-155): a chunk of bytes together with the
WebSocket send result, end of stream (`Ok(0)`), or a read error. -/
inductive ReadEvent where
  | chunk (payload : List Nat) (sendOk : Bool)
  | eof
  | readErr
deriving DecidableEq, Repr

/-- The standalone reverse relay (`routes/wisp.rs` lines 138-155):
loop reading the TCP half; on a chunk, send DATA (break on send
failure); on `Ok(0)` or on a read error, break.  After the loop a
single CLOSE(stream, Voluntary) is attempted, whichever way the loop
ended. -/
def read_relay_standalone (stream_id : Nat) : List ReadEvent → List Frame
  | [] => []
  | .eof :: _ => [.closeFrame stream_id .voluntary]
  | .readErr :: _ => [.closeFrame stream_id .voluntary]
  | .chunk payload sendOk :: rest =>
      .dataFrame stream_id payload ::
        (if sendOk then read_relay_standalone stream_id rest
         else [.closeFrame stream_id .voluntary])

/-- One observation of the worker relay's `reader.read()`
(`durable_objects/wisp_proxy.rs` lines 238-279): a value chunk with
the WebSocket send result, `done = true`, a read rejection, or a
failure to extract `value` from the result object. -/
inductive WorkerReadEvent where
  | chunk (payload : List Nat) (sendOk : Bool)
  | done
  | readErr
  | valueErr
deriving DecidableEq, Repr

/-- Loop body of the worker `read_relay`
(`durable_objects/wisp_proxy.rs` lines 238-279): a read rejection
sends CLOSE(stream, NetworkError); `done` sends
CLOSE(stream, Voluntary); an empty chunk is skipped; a nonempty chunk
is sent as DATA, breaking with no CLOSE when the send fails; a
`value` extraction failure breaks with no CLOSE. -/
def read_relay_worker_loop (stream_id : Nat) : List WorkerReadEvent → List Frame
  | [] => []
  | .readErr :: _ => [.closeFrame stream_id .networkError]
  | .done :: _ => [.closeFrame stream_id .voluntary]
  | .valueErr :: _ => []
  | .chunk payload sendOk :: rest =>
      if payload.isEmpty then read_relay_worker_loop stream_id rest
      else
        .dataFrame stream_id payload ::
          (if sendOk then read_relay_worker_loop stream_id rest else [])

/-- The worker `read_relay` (`durable_objects/wisp_proxy.rs`
lines 226-282): when `get_reader` fails, a single
CLOSE(stream, NetworkError) is sent; otherwise the read loop runs. -/
def read_relay_worker (stream_id : Nat) (getReaderOk : Bool)
    (events : List WorkerReadEvent) : List Frame :=
  if ¬ getReaderOk then [.closeFrame stream_id .networkError]
  else read_relay_worker_loop stream_id events

/-- Number of CLOSE frames in a frame list. -/
def closeCount (fs : List Frame) : Nat :=
  fs.countP (fun f => match f with | .closeFrame _ _ => true | _ => false)

/-!
## Package deletion (`routes/packages.rs`, `delete_package`
lines 173-238) versus task deletion
(`services/download_manager.rs`, `delete_task` lines 71-117)

Paths are component lists (`Path::parent` is `List.dropLast`);
canonicalisation is abstracted: the model's paths are already
canonical, mirroring `canonicalize(p).unwrap_or(p)` on canonical
inputs.  The filesystem records the existing file paths and
directory paths.
-/

/-- Split a path string into canonical components (the character-level
equivalent of splitting on `"/"`). -/
def pathOf (s : String) : List String :=
  (s.toList.splitOn '/').map (fun cs => String.mk cs)

/-- Directory-level filesystem: existing files and directories. -/
structure DirFS where
  files : List (List String)
  dirs : List (List String)
deriving DecidableEq, Repr

/-- `tokio::fs::remove_file`. -/
def DirFS.removeFile (fs : DirFS) (p : List String) : DirFS :=
  { fs with files := fs.files.filter (fun q => q ≠ p) }

/-- `read_dir(d)` finds no entry: no file and no directory has `d` as
its parent. -/
def DirFS.dirIsEmpty (fs : DirFS) (d : List String) : Bool :=
  ¬ fs.files.any (fun p => p.dropLast = d) ∧
  ¬ fs.dirs.any (fun p => p ≠ d ∧ p.dropLast = d)

/-- The empty-parent pruning loop shared by `delete_package`
(`routes/packages.rs` lines 217-234) and `delete_task`
(`services/download_manager.rs` lines 93-110): starting from the
deleted file's parent, while the directory is inside the packages
base and not the base itself, remove it when `read_dir` shows it
empty and move to its parent; stop on a non-empty directory or a
`read_dir` error (modelled as the directory not existing). -/
def prune_empty_dirs (fs : DirFS) (base : List String) (d : List String) : DirFS :=
  if ¬ path_within_base d base ∨ d = base then fs
  else if h : d = [] then fs
  else if d ∈ fs.dirs then
    if fs.dirIsEmpty d then
      prune_empty_dirs { fs with dirs := fs.dirs.filter (fun q => q ≠ d) }
        base d.dropLast
    else fs
  else fs
termination_by d.length
decreasing_by
  cases d with
  | nil => exact absurd rfl h
  | cons a as => simp [List.length_dropLast]

/-- The file-removal block shared by the two deletion paths
(`routes/packages.rs` lines 208-235, `download_manager.rs`
lines 83-111): canonicalise, and when the resolved path is inside the
packages base and exists, remove the file and prune empty parents. -/
def remove_staged_file (fs : DirFS) (file_path : String) (packages_dir : String) : DirFS :=
  let resolved := pathOf file_path
  let base := pathOf packages_dir
  if path_within_base resolved base ∧ resolved ∈ fs.files then
    prune_empty_dirs (fs.removeFile resolved) base resolved.dropLast
  else fs

/-- Server world for the deletion claims: the in-memory task map, the
packages filesystem, and the persisted `tasks.json` contents. -/
structure PkgWorld where
  tasks : TaskMap
  fs : DirFS
  tasks_json : List PersistedTask

/-- `persist_tasks` (`state.rs` lines 106-120): the `tasks.json`
contents written for a task map — every Completed task with a file
path, projected by `to_persisted`. -/
def persisted_snapshot (tasks : TaskMap) : List PersistedTask :=
  ((tasks.map (·.2)).filter
    (fun t => t.status = .completed ∧ t.file_path.isSome)).map
    (·.to_persisted)

/-- `delete_package` (`routes/packages.rs` lines 173-238): hash length
check, task lookup, byte-exact ownership, `file_path` presence; then
remove the staged file and prune — the task map and `tasks.json` are
not touched and `persist_tasks` is not called. -/
def delete_package (w : PkgWorld) (id : String) (query_hash : Option String)
    (packages_dir : String) : ApiResponse Unit × PkgWorld :=
  let account_hash := query_hash.getD ""
  if account_hash.utf8ByteSize < 8 then
    (.badRequest "Missing or invalid accountHash", w)
  else
    match w.tasks.find id with
    | none => (.notFound "Package not found", w)
    | some task =>
      if task.account_hash ≠ account_hash then (.forbidden "Access denied", w)
      else
        match task.file_path with
        | none => (.notFound "Package not found", w)
        | some file_path =>
          (.ok (), { w with fs := remove_staged_file w.fs file_path packages_dir })

/-- `delete_task` (`services/download_manager.rs` lines 71-117):
signal abort (no record effect), remove the record from the map,
remove the staged file and prune, then persist. -/
def delete_task (w : PkgWorld) (id : String) (packages_dir : String) : PkgWorld :=
  let removed := w.tasks.find id
  let tasks' := w.tasks.erase id
  let fs' :=
    match removed with
    | some task =>
      match task.file_path with
      | some fp => remove_staged_file w.fs fp packages_dir
      | none => w.fs
    | none => w.fs
  { tasks := tasks', fs := fs', tasks_json := persisted_snapshot tasks' }

/-!
## Sample values for concrete evaluations
-/

def sampleSoftware : Software :=
  { name := "App", version := "1.0", bundle_id := "com.example.app",
    artwork_url := "https://art.example/icon.png" }

def sampleRequest : CreateDownloadRequest :=
  { software := sampleSoftware, account_hash := "abcdefgh",
    download_url := "https://example.com/app.ipa", sinfs := [],
    itunes_metadata := none }

def sampleTask : DownloadTask := new_task sampleRequest "task-1" 0

def sampleRawItem : RawItem :=
  { idField := some "task-1", statusField := some "completed",
    filePathField := some "/data/packages/abcdefgh/com.example.app/1.0/task-1.ipa",
    decoded := some sampleTask }

/-!
## Theorems
-/

/-- Searching for key `id` is unaffected by filtering out key `k ≠ id`. -/
theorem find?_filter_ne_key {α : Type} (l : List (String × α)) (k id : String)
    (h : ¬ id = k) :
    (l.filter (fun kv => kv.1 ≠ k)).find? (fun kv => kv.1 = id)
      = l.find? (fun kv => kv.1 = id) := by
  induction l with
  | nil => rfl
  | cons kv rest ih =>
    by_cases hkv : kv.1 = k
    · rw [List.filter_cons_of_neg (by simpa using hkv)]
      rw [ih, List.find?_cons_of_neg _ (by
        simp only [decide_eq_true_eq]
        intro he
        exact h (by rw [← he, hkv]))]
    · rw [List.filter_cons_of_pos (by simpa using hkv)]
      by_cases hid : kv.1 = id
      · rw [List.find?_cons_of_pos _ (by simpa using hid),
            List.find?_cons_of_pos _ (by simpa using hid)]
      · rw [List.find?_cons_of_neg _ (by simpa using hid),
            List.find?_cons_of_neg _ (by simpa using hid), ih]

/-- `TaskMap.find` after `TaskMap.insert`. -/
theorem TaskMap.find_insert (m : TaskMap) (k : String) (v : DownloadTask)
    (id : String) :
    (m.insert k v).find id = if id = k then some v else m.find id := by
  unfold TaskMap.insert TaskMap.find
  by_cases h : id = k
  · subst h
    rw [List.find?_cons_of_pos _ (by simp)]
    simp
  · rw [List.find?_cons_of_neg _ (by
      simp only [decide_eq_true_eq]
      exact fun he => h he.symm)]
    rw [if_neg h, find?_filter_ne_key _ _ _ h]

/-- `TaskMap.find` after `TaskMap.erase`. -/
theorem TaskMap.find_erase (m : TaskMap) (k : String) (id : String) :
    (m.erase k).find id = if id = k then none else m.find id := by
  unfold TaskMap.erase TaskMap.find
  by_cases h : id = k
  · subst h
    have : (m.filter (fun kv => kv.1 ≠ id)).find? (fun kv => kv.1 = id) = none := by
      rw [List.find?_eq_none]
      intro kv hkv
      have := (List.mem_filter.mp hkv).2
      simpa using this
    simp [this]
  · rw [if_neg h, find?_filter_ne_key _ _ _ h]

/-- C1: every task record reachable through the download engine whose
status is Completed has its `download_url`, `sinfs` and
`itunes_metadata` cleared (the completion step at
`download_manager.rs` lines 330-344 clears them whenever it sets
Completed), and the sanitised projection used in every client
response omits the three secret fields entirely: its value does not
depend on them. -/
theorem completed_record_secrets_cleared_and_sanitize_omits_secrets :
    (∀ t : DownloadTask, ReachableTask t → t.status = .completed →
      secretsCleared t) ∧
    (∀ (t : DownloadTask) (u : String) (s : List Sinf) (m : Option String)
      (fe : Bool),
      DownloadTask.sanitize
        { t with download_url := u, sinfs := s, itunes_metadata := m } fe
        = t.sanitize fe) := by
  constructor
  · intro t h
    induction h with
    | created req fresh_id now =>
      intro hst
      exact TaskStatus.noConfusion hst
    | loaded t h1 h2 h3 =>
      intro _
      exact h3
    | step t t' _ hstep ih =>
      cases hstep with
      | setDownloading => intro hst; exact TaskStatus.noConfusion hst
      | setFilePath p => exact fun hst => ih hst
      | setTelemetry sp pr => exact fun hst => ih hst
      | pause hdl => intro hst; exact TaskStatus.noConfusion hst
      | fail => intro hst; exact TaskStatus.noConfusion hst
      | setInjecting => intro hst; exact TaskStatus.noConfusion hst
      | complete => intro _; exact ⟨rfl, rfl, rfl⟩
  · intro t u s m fe
    rfl

/-- Witness for C1 at a concrete reachable record: the sample task
driven through the completion step. -/
theorem completed_record_secrets_cleared_witness :
    secretsCleared
      { sampleTask with status := .completed, progress := 100,
                        download_url := "", sinfs := [],
                        itunes_metadata := none } :=
  completed_record_secrets_cleared_and_sanitize_omits_secrets.1 _
    (ReachableTask.step _ _ (ReachableTask.created sampleRequest "task-1" 0)
      (TaskStep.complete sampleTask))
    rfl

/-- C4: the loading loop of `load_tasks` (`state.rs` lines 48-78)
inserts a persisted record exactly when its `id` and `filePath`
string fields are non-empty, its `status` is `"completed"`, a file
exists at `filePath`, and the record deserialises as a
`DownloadTask`; every accepted record is normalised to Completed,
progress 100 and cleared secrets, and every task in the resulting map
comes from some accepted record. -/
theorem load_record_characterisation :
    (∀ (fe : String → Bool) (item : RawItem),
      (load_record fe item).isSome ↔
        (item.idField.getD "" ≠ "" ∧
         item.statusField.getD "" = "completed" ∧
         item.filePathField.getD "" ≠ "" ∧
         fe (item.filePathField.getD "") = true ∧
         item.decoded.isSome)) ∧
    (∀ (fe : String → Bool) (item : RawItem) (t : DownloadTask),
      load_record fe item = some t →
        t.status = .completed ∧ t.progress = 100 ∧ secretsCleared t) ∧
    (∀ (fe : String → Bool) (items : List RawItem) (id : String)
      (t : DownloadTask),
      (load_tasks fe items).find id = some t →
        ∃ item ∈ items, load_record fe item = some t) := by
  refine ⟨?_, ?_, ?_⟩
  · intro fe item
    unfold load_record
    by_cases h1 : item.idField.getD "" = "" ∨
        item.statusField.getD "" ≠ "completed" ∨ item.filePathField.getD "" = ""
    · simp only [if_pos h1, Option.isSome_none, Bool.false_eq_true, false_iff]
      intro ⟨ha, hb, hc, _, _⟩
      rcases h1 with h | h | h
      · exact ha h
      · exact h hb
      · exact hc h
    · rw [if_neg h1]
      push_neg at h1
      obtain ⟨ha, hb, hc⟩ := h1
      by_cases h2 : fe (item.filePathField.getD "")
      · simp [h2, ha, hb, hc]
      · rw [Bool.not_eq_true] at h2
        simp [h2]
  · intro fe item t h
    unfold load_record at h
    by_cases h1 : item.idField.getD "" = "" ∨
        item.statusField.getD "" ≠ "completed" ∨ item.filePathField.getD "" = ""
    · rw [if_pos h1] at h; exact Option.noConfusion h
    · rw [if_neg h1] at h
      by_cases h2 : fe (item.filePathField.getD "")
      · rw [if_neg (by simp [h2])] at h
        match hdec : item.decoded with
        | none => rw [hdec] at h; exact Option.noConfusion h
        | some t0 =>
          rw [hdec] at h
          simp only [Option.map] at h
          injection h with h
          rw [← h]
          exact ⟨rfl, rfl, rfl, rfl, rfl⟩
      · rw [if_pos (by simp [h2])] at h; exact Option.noConfusion h
  · intro fe items id t
    unfold load_tasks
    suffices H : ∀ (m : TaskMap),
        ((items.foldl
          (fun m item =>
            match load_record fe item with
            | some t => m.insert t.id t
            | none => m) m).find id = some t) →
        m.find id = some t ∨ ∃ item ∈ items, load_record fe item = some t by
      intro h
      rcases H [] h with h' | h'
      · exact absurd h' (by simp [TaskMap.find])
      · exact h'
    induction items with
    | nil => intro m h; exact Or.inl h
    | cons item rest ih =>
      intro m h
      simp only [List.foldl_cons] at h
      rcases ih _ h with h' | h'
      · match hrec : load_record fe item with
        | none =>
          rw [hrec] at h'
          exact Or.inl h'
        | some t0 =>
          rw [hrec] at h'
          rw [TaskMap.find_insert] at h'
          by_cases hid : id = t0.id
          · rw [if_pos hid] at h'
            refine Or.inr ⟨item, List.mem_cons_self .., ?_⟩
            rw [hrec, Option.some_inj.mp h']
          · rw [if_neg hid] at h'
            exact Or.inl h'
      · obtain ⟨it, hmem, hrec⟩ := h'
        exact Or.inr ⟨it, List.mem_cons_of_mem _ hmem, hrec⟩

/-- Witness for C4 at a concrete record and file-existence map. -/
theorem load_record_characterisation_witness :
    ((load_record (fun _ => true) sampleRawItem).isSome ↔
      (sampleRawItem.idField.getD "" ≠ "" ∧
       sampleRawItem.statusField.getD "" = "completed" ∧
       sampleRawItem.filePathField.getD "" ≠ "" ∧
       (fun _ => true) (sampleRawItem.filePathField.getD "") = true ∧
       sampleRawItem.decoded.isSome)) ∧
    (∀ t, load_record (fun _ => true) sampleRawItem = some t →
      t.status = .completed ∧ t.progress = 100 ∧ secretsCleared t) := by
  refine ⟨load_record_characterisation.1 (fun _ => true) sampleRawItem, ?_⟩
  intro t h
  exact load_record_characterisation.2.1 (fun _ => true) sampleRawItem t h

/-- C5: access control of `GET /api/downloads/:id` — a supplied hash
shorter than 8 bytes yields 400 before anything else; with a valid
hash a missing task yields 404; with a present task the response is
403 "Access denied" exactly when the supplied hash differs from the
stored one, and 200 with the sanitised task exactly when the two are
byte-equal.  The same check ordering (length, existence, byte-exact
ownership) governs `GET /api/packages/:id/file`, whose existence
check additionally requires status Completed. -/
theorem download_routes_access_control :
    (∀ (tasks : TaskMap) (id : String) (q : Option String)
      (fe : String → Bool),
      ((q.getD "").utf8ByteSize < 8 →
        get_download tasks id q fe
          = .badRequest "Missing or invalid accountHash parameter") ∧
      (8 ≤ (q.getD "").utf8ByteSize → tasks.find id = none →
        get_download tasks id q fe = .notFound "Download not found") ∧
      (∀ task, 8 ≤ (q.getD "").utf8ByteSize → tasks.find id = some task →
        (get_download tasks id q fe = .forbidden "Access denied" ↔
          task.account_hash ≠ q.getD "") ∧
        (get_download tasks id q fe
            = .ok (task.sanitize ((task.file_path.map fe).getD false)) ↔
          task.account_hash = q.getD ""))) ∧
    (∀ (tasks : List DownloadTask) (id : String) (q : Option String)
      (env : FileEnv),
      ((q.getD "").utf8ByteSize < 8 →
        download_file tasks id q env
          = .badRequest "Missing or invalid accountHash") ∧
      (8 ≤ (q.getD "").utf8ByteSize →
        tasks.find? (fun t => t.id = id ∧ t.status = .completed) = none →
        download_file tasks id q env = .notFound "Package not found") ∧
      (∀ task, 8 ≤ (q.getD "").utf8ByteSize →
        tasks.find? (fun t => t.id = id ∧ t.status = .completed) = some task →
        task.account_hash ≠ q.getD "" →
        download_file tasks id q env = .forbidden "Access denied")) := by
  constructor
  · intro tasks id q fe
    refine ⟨?_, ?_, ?_⟩
    · intro hlen
      unfold get_download require_account_hash
      simp only [Option.or_none]
      rw [if_pos hlen]
    · intro hlen hfind
      unfold get_download require_account_hash
      simp only [Option.or_none]
      rw [if_neg (by omega), hfind]
    · intro task hlen hfind
      unfold get_download require_account_hash verify_ownership
      simp only [Option.or_none]
      rw [if_neg (by omega), hfind]
      dsimp only
      by_cases hh : task.account_hash = q.getD ""
      · rw [if_neg (by simpa using hh)]
        dsimp only
        constructor
        · constructor
          · intro he; exact ApiResponse.noConfusion he
          · intro hne; exact absurd hh hne
        · simp [hh]
      · rw [if_pos (by simpa using hh)]
        dsimp only
        constructor
        · constructor
          · intro _; exact hh
          · intro _; rfl
        · constructor
          · intro he; exact ApiResponse.noConfusion he
          · intro he; exact absurd he hh
  · intro tasks id q env
    refine ⟨?_, ?_, ?_⟩
    · intro hlen
      unfold download_file
      rw [if_pos hlen]
    · intro hlen hfind
      unfold download_file
      rw [if_neg (by omega), hfind]
    · intro task hlen hfind hne
      unfold download_file
      rw [if_neg (by omega), hfind]
      dsimp only
      rw [if_pos (by simpa using hne)]

/-- Witness for C5: a concrete map with one completed task owned by
`"abcdefgh"`, probed with the owner's hash, a wrong hash and a short
hash. -/
theorem download_routes_access_control_witness :
    (get_download [("task-1", { sampleTask with status := .completed })]
        "task-1" (some "abcdefgh") (fun _ => false)
      = .ok (({ sampleTask with status := .completed }).sanitize false)) ∧
    (get_download [("task-1", { sampleTask with status := .completed })]
        "task-1" (some "BBBBBBBB") (fun _ => false)
      = .forbidden "Access denied") ∧
    (get_download [("task-1", { sampleTask with status := .completed })]
        "task-1" (some "short") (fun _ => false)
      = .badRequest "Missing or invalid accountHash parameter") ∧
    (download_file [{ sampleTask with status := .completed }]
        "task-1" (some "BBBBBBBB")
        ⟨fun _ => none, none, fun _ => none, fun _ => false⟩
      = .forbidden "Access denied") := by
  refine ⟨?_, ?_, ?_, ?_⟩
  · exact ((download_routes_access_control.1 _ "task-1" (some "abcdefgh")
      (fun _ => false)).2.2 _ (by decide) (by rfl)).2.mpr (by decide)
  · exact ((download_routes_access_control.1 _ "task-1" (some "BBBBBBBB")
      (fun _ => false)).2.2 _ (by decide) (by rfl)).1.mpr (by decide)
  · exact (download_routes_access_control.1 _ "task-1" (some "short")
      (fun _ => false)).1 (by decide)
  · exact (download_routes_access_control.2 _ "task-1" (some "BBBBBBBB")
      _).2.2 _ (by decide) (by rfl) (by decide)

/-- C6 counterexample: with declared `Content-Length` 1 (which passes
the `content_length > MAX_DOWNLOAD_SIZE` check) and 2 bytes actually
delivered (which passes the running-total cap), the streamed progress
value `round(100 · downloaded / content_length)` is 200 — the claim
that it never exceeds 100 for all values permitted by the size cap is
false on the code. -/
theorem stream_progress_exceeds_100_counterexample :
    stream_progress 2 1 = 200 ∧ 100 < stream_progress 2 1 ∧
    2 ≤ MAX_DOWNLOAD_SIZE ∧ 1 ≤ MAX_DOWNLOAD_SIZE := by
  have h : stream_progress 2 1 = 200 := by
    norm_num [stream_progress, round_eq]
    rfl
  refine ⟨h, by rw [h]; norm_num, by norm_num [MAX_DOWNLOAD_SIZE],
    by norm_num [MAX_DOWNLOAD_SIZE]⟩

/-- C6 amended: the streamed progress value is an integer in [0,100]
whenever the running byte total does not exceed the declared content
length, and it is 0 when the content length is unknown (0); in
general the `as u8` saturation bounds it by 255, so a stream that
delivers more bytes than its declared length can drive the stored
progress above 100. -/
theorem stream_progress_bounds :
    (∀ downloaded content_length : Nat, downloaded ≤ content_length →
      stream_progress downloaded content_length ≤ 100) ∧
    (∀ downloaded : Nat, stream_progress downloaded 0 = 0) ∧
    (∀ downloaded content_length : Nat,
      stream_progress downloaded content_length ≤ 255) := by
  refine ⟨?_, ?_, ?_⟩
  · intro d c h
    unfold stream_progress
    by_cases hc : c > 0
    · rw [if_pos hc]
      have h1 : (d : ℚ) / (c : ℚ) ≤ 1 := by
        rw [div_le_one (by positivity)]
        exact_mod_cast h
      have hr : round ((d : ℚ) / (c : ℚ) * 100) ≤ 100 := by
        calc round ((d : ℚ) / (c : ℚ) * 100) ≤ round (100 : ℚ) := by
              rw [round_eq, round_eq]
              exact Int.floor_le_floor (by linarith)
          _ = 100 := by
              rw [show ((100 : ℚ)) = ((100 : ℤ) : ℚ) by norm_num, round_intCast]
      have := Int.toNat_le_toNat hr
      simp only [Int.toNat_ofNat] at this
      omega
    · rw [if_neg hc]
      omega
  · intro d
    unfold stream_progress
    norm_num
  · intro d c
    unfold stream_progress
    by_cases hc : c > 0
    · rw [if_pos hc]
      omega
    · rw [if_neg hc]
      omega

/-- Witness for the amended C6 at concrete inputs. -/
theorem stream_progress_bounds_witness :
    stream_progress 50 100 ≤ 100 ∧ stream_progress 7 0 = 0 ∧
    stream_progress 2 1 ≤ 255 :=
  ⟨stream_progress_bounds.1 50 100 (by norm_num),
   stream_progress_bounds.2.1 7,
   stream_progress_bounds.2.2 2 1⟩

/-- Looking up the path just written. -/
theorem ZipFS.lookup_write_self (fs : ZipFS) (p : String) (c : ZipContent) :
    (fs.write p c).lookup p = some c := by
  unfold ZipFS.write ZipFS.lookup
  rw [List.find?_cons_of_pos _ (by simp)]
  rfl

/-- Writing one path does not affect lookups of another. -/
theorem ZipFS.lookup_write_ne (fs : ZipFS) (p q : String) (c : ZipContent)
    (h : ¬ q = p) :
    (fs.write p c).lookup q = fs.lookup q := by
  unfold ZipFS.write ZipFS.lookup
  rw [List.find?_cons_of_neg _ (by simpa using fun he => h he.symm)]
  rw [find?_filter_ne_key _ _ _ h]

/-- Looking up a removed path. -/
theorem ZipFS.lookup_remove_self (fs : ZipFS) (p : String) :
    (fs.remove p).lookup p = none := by
  unfold ZipFS.remove ZipFS.lookup
  have h : (fs.filter (fun kv => kv.1 ≠ p)).find? (fun kv => kv.1 = p) = none := by
    rw [List.find?_eq_none]
    intro kv hkv
    have := (List.mem_filter.mp hkv).2
    simpa using this
  rw [h]
  rfl

/-- A path is never equal to itself with `".tmp"` appended. -/
theorem ne_append_tmp (p : String) : ¬ p = p ++ ".tmp" := by
  intro h
  have hlen := congrArg String.length h
  rw [String.length_append] at hlen
  have h4 : (".tmp" : String).length = 4 := rfl
  omega

/-- A successful copy phase yields exactly the input entries whose
names are outside the injection set, in order. -/
theorem copy_entries_ok (env : ZipEnv) (ips : List String) :
    ∀ (entries : ZipContent) (l : ZipContent),
      copy_entries env ips entries = .ok l →
      l = entries.filter (fun e => e.1 ∉ ips) := by
  intro entries
  induction entries with
  | nil => intro l h; unfold copy_entries at h; injection h with h; simp [← h]
  | cons e rest ih =>
    intro l h
    unfold copy_entries at h
    by_cases hmem : e.1 ∈ ips
    · rw [if_pos hmem] at h
      rw [List.filter_cons_of_neg (by simpa using hmem)]
      exact ih l h
    · rw [if_neg hmem] at h
      by_cases hcopy : env.copyOk e.1
      · rw [if_pos hcopy] at h
        match hrec : copy_entries env ips rest with
        | .ok tail =>
          rw [hrec] at h
          injection h with h
          rw [List.filter_cons_of_pos (by simpa using hmem), ← h, ih tail hrec]
        | .error pr =>
          rw [hrec] at h
          exact Except.noConfusion h
      · rw [if_neg hcopy] at h
        exact Except.noConfusion h

/-- A successful append phase writes exactly the planned entries. -/
theorem append_entries_ok (env : ZipEnv) :
    ∀ (plan : List (String × List Nat)) (l : ZipContent),
      append_entries env plan = .ok l → l = plan := by
  intro plan
  induction plan with
  | nil => intro l h; unfold append_entries at h; injection h with h; exact h.symm
  | cons e rest ih =>
    intro l h
    unfold append_entries at h
    by_cases hs : env.startOk e.1
    · rw [if_neg (by simpa using hs)] at h
      by_cases hw : env.writeOk e.1
      · rw [if_neg (by simpa using hw)] at h
        match hrec : append_entries env rest with
        | .ok tail =>
          rw [hrec] at h
          injection h with h
          rw [← h, ih tail hrec]
        | .error pr =>
          rw [hrec] at h
          exact Except.noConfusion h
      · rw [if_pos (by simpa using hw)] at h
        exact Except.noConfusion h
    · rw [if_pos (by simpa using hs)] at h
      exact Except.noConfusion h

/-- C2: the archive rewrite leaves the original IPA byte-for-byte
unchanged on any failure — at temp creation, entry copy,
appended-entry write, or finish — because every write before the
final rename touches only `<ipa>.tmp`; and on success, which requires
every step to have succeeded, the original is replaced by the copied
entries followed by the injected ones and the temp file is gone. -/
theorem rewrite_zip_atomic :
    ∀ (fs : ZipFS) (ipa_path : String) (entries : ZipContent)
      (plan : List (String × List Nat)) (env : ZipEnv),
      (∀ msg, (rewrite_zip fs ipa_path entries plan env).1 = .error msg →
        (rewrite_zip fs ipa_path entries plan env).2.lookup ipa_path
          = fs.lookup ipa_path) ∧
      ((rewrite_zip fs ipa_path entries plan env).1 = .ok () →
        (rewrite_zip fs ipa_path entries plan env).2.lookup ipa_path
          = some (entries.filter (fun e => e.1 ∉ plan.map (·.1)) ++ plan) ∧
        (rewrite_zip fs ipa_path entries plan env).2.lookup (ipa_path ++ ".tmp")
          = none) := by
  intro fs ipa_path entries plan env
  have hne : ¬ ipa_path = ipa_path ++ ".tmp" := ne_append_tmp ipa_path
  unfold rewrite_zip
  by_cases hcreate : env.createOk
  · rw [if_neg (not_not_intro hcreate)]
    dsimp only
    match hcopy : copy_entries env (plan.map (·.1)) entries with
    | .error pr =>
      rw [hcopy]
      dsimp only
      constructor
      · intro msg _
        exact ZipFS.lookup_write_ne _ _ _ _ hne
      · intro h
        exact Except.noConfusion h
    | .ok copied =>
      rw [hcopy]
      dsimp only
      match happend : append_entries env plan with
      | .error pr =>
        dsimp only
        constructor
        · intro msg _
          exact ZipFS.lookup_write_ne _ _ _ _ hne
        · intro h
          exact Except.noConfusion h
      | .ok appended =>
        dsimp only
        by_cases hfin : env.finishOk
        · rw [if_neg (not_not_intro hfin)]
          by_cases hren : env.renameOk
          · rw [if_neg (not_not_intro hren)]
            constructor
            · intro msg h
              exact Except.noConfusion h
            · intro _
              have hsrc : ((fs.write (ipa_path ++ ".tmp") (copied ++ appended)).lookup
                  (ipa_path ++ ".tmp")) = some (copied ++ appended) :=
                ZipFS.lookup_write_self ..
              unfold ZipFS.rename
              rw [hsrc]
              constructor
              · rw [ZipFS.lookup_write_self]
                rw [copy_entries_ok env _ entries copied hcopy,
                    append_entries_ok env plan appended happend]
              · rw [ZipFS.lookup_write_ne _ _ _ _ (fun he => hne he.symm)]
                exact ZipFS.lookup_remove_self ..
          · rw [if_pos hren]
            constructor
            · intro msg _
              exact ZipFS.lookup_write_ne _ _ _ _ hne
            · intro h
              exact Except.noConfusion h
        · rw [if_pos hfin]
          constructor
          · intro msg _
            exact ZipFS.lookup_write_ne _ _ _ _ hne
          · intro h
            exact Except.noConfusion h
  · rw [if_pos hcreate]
    exact ⟨fun _ _ => rfl, fun h => Except.noConfusion h⟩

/-- Witness for C2: a concrete two-entry archive.  With every step
succeeding, the rewrite replaces the original with the copy of the
non-injected entry followed by the injected one and removes the temp
file; with `finish` failing, the original content is untouched. -/
theorem rewrite_zip_atomic_witness :
    (let fs : ZipFS := [("a.ipa", [("x", [1]), ("s", [2])])]
     let envOk : ZipEnv :=
       ⟨true, fun _ => true, fun _ => true, fun _ => true, true, true⟩
     (rewrite_zip fs "a.ipa" [("x", [1]), ("s", [2])] [("s", [9])] envOk).2.lookup
        "a.ipa" = some [("x", [1]), ("s", [9])] ∧
     (rewrite_zip fs "a.ipa" [("x", [1]), ("s", [2])] [("s", [9])] envOk).2.lookup
        "a.ipa.tmp" = none) ∧
    (let fs : ZipFS := [("a.ipa", [("x", [1]), ("s", [2])])]
     let envBad : ZipEnv :=
       ⟨true, fun _ => true, fun _ => true, fun _ => true, false, true⟩
     (rewrite_zip fs "a.ipa" [("x", [1]), ("s", [2])] [("s", [9])] envBad).2.lookup
        "a.ipa" = fs.lookup "a.ipa") := by
  constructor
  · have h := (rewrite_zip_atomic [("a.ipa", [("x", [1]), ("s", [2])])] "a.ipa"
      [("x", [1]), ("s", [2])] [("s", [9])]
      ⟨true, fun _ => true, fun _ => true, fun _ => true, true, true⟩).2 rfl
    exact ⟨by rw [h.1]; rfl, h.2⟩
  · exact (rewrite_zip_atomic [("a.ipa", [("x", [1]), ("s", [2])])] "a.ipa"
      [("x", [1]), ("s", [2])] [("s", [9])]
      ⟨true, fun _ => true, fun _ => true, fun _ => true, false, true⟩).1
      "Finish ZIP" rfl

/-- C10: when the computed injection plan contains no files, `inject`
returns success without rewriting the archive: the filesystem is
returned unchanged (in particular the IPA's bytes are untouched and
no `<ipa>.tmp` is created).  The second conjunct is the claim's
example: a Manifest `SinfPaths` array paired with no provided SINF
tuple and no metadata produces the empty plan. -/
theorem inject_sync_empty_plan_no_rewrite :
    (∀ (fs : ZipFS) (ipa_path : String) (env : InjectEnv)
      (entries : ZipContent) (bundle_name : String)
      (source : InjectionSource) (sinf_data : List (Int × List Nat)),
      env.openOk = true →
      fs.lookup ipa_path = some entries →
      env.bundleName = some bundle_name →
      env.source = some source →
      env.sinfData = some sinf_data →
      env.metadata ≠ some none →
      (plan_injection bundle_name source sinf_data
        (env.metadata.bind id)).files = [] →
      inject_sync fs ipa_path env = (.ok (), fs)) ∧
    (plan_injection "App"
      (.manifest ["Payload/App.app/SC_Info/App.sinf"]) [] none).files = [] := by
  constructor
  · intro fs ipa_path env entries bundle_name source sinf_data
      hopen hlook hbundle hsource hsinf hmeta hplan
    unfold inject_sync
    rw [if_neg (not_not_intro hopen), hlook]
    dsimp only
    rw [hbundle]
    dsimp only
    rw [hsource]
    dsimp only
    rw [hsinf]
    dsimp only
    match hm : env.metadata with
    | some none => exact absurd hm hmeta
    | none =>
      dsimp only
      rw [hm] at hplan
      simp only [Option.bind] at hplan
      rw [if_pos (by simpa using hplan)]
    | some (some m) =>
      dsimp only
      rw [hm] at hplan
      simp only [Option.bind] at hplan
      rw [if_pos (by simpa using hplan)]
  · rfl

/-- Witness for C10: a concrete archive and environment realising the
claim's example; the zip-step outcomes are all set to fail, showing
no rewrite step is ever consulted. -/
theorem inject_sync_empty_plan_no_rewrite_witness :
    inject_sync [("a.ipa", [("Payload/App.app/x", [1])])] "a.ipa"
      ⟨true, some "App", some (.manifest ["Payload/App.app/SC_Info/App.sinf"]),
       some [], none,
       ⟨false, fun _ => false, fun _ => false, fun _ => false, false, false⟩⟩
      = (.ok (), [("a.ipa", [("Payload/App.app/x", [1])])]) :=
  inject_sync_empty_plan_no_rewrite.1 _ "a.ipa" _ [("Payload/App.app/x", [1])]
    "App" (.manifest ["Payload/App.app/SC_Info/App.sinf"]) []
    rfl rfl rfl rfl rfl (by simp) rfl

/-!
### Orphan sweeper theorems (C3)
-/

mutual

/-- Membership in the files of a cleaned entry. -/
theorem mem_filesOf_clean_entry (known : List String) (e : FsEntry)
    (c : String) :
    c ∈ filesOfOpt (walk_and_clean_entry known e) ↔
      c ∈ filesOfEntry e ∧ c ∈ known := by
  match e with
  | .file name canonical =>
    unfold walk_and_clean_entry
    by_cases h : canonical ∈ known
    · rw [if_pos h]
      unfold filesOfOpt filesOfEntry
      constructor
      · intro hc
        have hc' : c = canonical := by simpa using hc
        exact ⟨by simpa using hc, hc' ▸ h⟩
      · exact fun hc => hc.1
    · rw [if_neg h]
      unfold filesOfOpt
      constructor
      · intro hc; exact absurd hc (by simp)
      · intro ⟨hc, hk⟩
        have hc' : c = canonical := by simpa [filesOfEntry] using hc
        exact absurd hk (hc' ▸ h)
  | .dir name children =>
    have hrec := mem_filesOf_clean_forest known children c
    unfold walk_and_clean_entry
    match hcl : walk_and_clean known children with
    | [] =>
      dsimp only
      unfold filesOfOpt
      rw [hcl] at hrec
      constructor
      · intro hc; exact absurd hc (by simp)
      · intro hc
        exact absurd (hrec.mpr ⟨hc.1, hc.2⟩) (by simp [filesOfForest])
    | e' :: es' =>
      dsimp only
      rw [hcl] at hrec
      unfold filesOfOpt filesOfEntry
      exact hrec

/-- Membership in the files of a cleaned forest: exactly the files of
the original forest whose canonical path is known. -/
theorem mem_filesOf_clean_forest (known : List String) (f : List FsEntry)
    (c : String) :
    c ∈ filesOfForest (walk_and_clean known f) ↔
      c ∈ filesOfForest f ∧ c ∈ known := by
  match f with
  | [] =>
    unfold walk_and_clean filesOfForest
    simp
  | e :: es =>
    have hrec := mem_filesOf_clean_forest known es c
    have hent := mem_filesOf_clean_entry known e c
    unfold walk_and_clean
    match hce : walk_and_clean_entry known e with
    | some e' =>
      dsimp only
      rw [hce] at hent
      simp only [filesOfOpt] at hent
      simp only [filesOfForest]
      rw [List.mem_append, List.mem_append]
      rw [hent, hrec]
      tauto
    | none =>
      dsimp only
      rw [hce] at hent
      simp only [filesOfOpt] at hent
      simp only [filesOfForest]
      rw [List.mem_append]
      rw [hrec]
      constructor
      · intro h
        exact ⟨Or.inr h.1, h.2⟩
      · intro h
        rcases h.1 with he | hes
        · exact absurd (hent.mpr ⟨he, h.2⟩) (by simp)
        · exact ⟨hes, h.2⟩

end

mutual

/-- A cleaned entry contains no empty directory. -/
theorem noEmptyDir_clean_entry (known : List String) (e : FsEntry) :
    ∀ e', walk_and_clean_entry known e = some e' → noEmptyDirEntry e' := by
  match e with
  | .file name canonical =>
    intro e' h
    unfold walk_and_clean_entry at h
    by_cases hk : canonical ∈ known
    · rw [if_pos hk] at h
      injection h with h
      rw [← h]
      unfold noEmptyDirEntry
      trivial
    · rw [if_neg hk] at h
      exact Option.noConfusion h
  | .dir name children =>
    intro e' h
    unfold walk_and_clean_entry at h
    match hcl : walk_and_clean known children with
    | [] =>
      rw [hcl] at h
      exact Option.noConfusion h
    | c0 :: cs =>
      rw [hcl] at h
      injection h with h
      rw [← h]
      unfold noEmptyDirEntry
      refine ⟨by simp, ?_⟩
      rw [← hcl]
      exact noEmptyDir_clean_forest known children

/-- A cleaned forest contains no empty directory. -/
theorem noEmptyDir_clean_forest (known : List String) (f : List FsEntry) :
    noEmptyDirForest (walk_and_clean known f) := by
  match f with
  | [] =>
    unfold walk_and_clean noEmptyDirForest
    trivial
  | e :: es =>
    unfold walk_and_clean
    match hce : walk_and_clean_entry known e with
    | some e' =>
      unfold noEmptyDirForest
      exact ⟨noEmptyDir_clean_entry known e e' hce,
        noEmptyDir_clean_forest known es⟩
    | none =>
      exact noEmptyDir_clean_forest known es

end

/-- C3: after the startup sweep over a packages root whose files are
`F_known ∪ F_orphan`, with `F_known` exactly the canonical paths
referenced by the loaded tasks, the surviving files are exactly
`F_known` (membership in the cleaned forest is membership in the
original files intersected with the known set, which equals the known
set when every known path is present), and no empty directory
remains — in particular every directory emptied by the deletions is
removed. -/
theorem orphan_sweep_exact :
    ∀ (known : List String) (root : List FsEntry) (c : String),
      (c ∈ filesOfForest (walk_and_clean known root) ↔
        c ∈ filesOfForest root ∧ c ∈ known) ∧
      ((∀ k ∈ known, k ∈ filesOfForest root) →
        (c ∈ filesOfForest (walk_and_clean known root) ↔ c ∈ known)) ∧
      noEmptyDirForest (walk_and_clean known root) := by
  intro known root c
  refine ⟨mem_filesOf_clean_forest known root c, ?_,
    noEmptyDir_clean_forest known root⟩
  intro hsub
  rw [mem_filesOf_clean_forest known root c]
  constructor
  · exact fun h => h.2
  · intro h
    exact ⟨hsub c h, h⟩

/-- Witness for C3: a concrete root with one known file, one orphan
file, and a directory that becomes empty. -/
theorem orphan_sweep_exact_witness :
    ("/r/a/keep.ipa" ∈
      filesOfForest (walk_and_clean ["/r/a/keep.ipa"]
        [.dir "a" [.file "keep.ipa" "/r/a/keep.ipa"],
         .dir "b" [.file "orphan.ipa" "/r/b/orphan.ipa"]]) ↔
      "/r/a/keep.ipa" ∈ ["/r/a/keep.ipa"]) ∧
    noEmptyDirForest (walk_and_clean ["/r/a/keep.ipa"]
      [.dir "a" [.file "keep.ipa" "/r/a/keep.ipa"],
       .dir "b" [.file "orphan.ipa" "/r/b/orphan.ipa"]]) := by
  have h := orphan_sweep_exact ["/r/a/keep.ipa"]
    [.dir "a" [.file "keep.ipa" "/r/a/keep.ipa"],
     .dir "b" [.file "orphan.ipa" "/r/b/orphan.ipa"]] "/r/a/keep.ipa"
  refine ⟨h.2.1 ?_, h.2.2⟩
  intro k hk
  have hk' : k = "/r/a/keep.ipa" := by simpa using hk
  rw [hk']
  simp [filesOfForest, filesOfEntry]

/-- C7 counterexample: in the standalone server a CONNECT whose
payload parses and whose target validates leads to
CONTINUE(stream, 128) being sent *before* the TCP dial
(`routes/wisp.rs` lines 71-74); when the dial then fails, the client
has received a CONTINUE followed by CLOSE(ServerRefused) — the claim
that no CONTINUE is ever emitted for a stream whose dial fails is
false for the standalone implementation. -/
theorem wisp_connect_continue_before_dial_counterexample :
    (handle_connect_standalone 1 ⟨true, true, false⟩).1
      = [.continueFrame 1 128, .closeFrame 1 .serverRefused] ∧
    Frame.continueFrame 1 128 ∈ (handle_connect_standalone 1 ⟨true, true, false⟩).1 := by
  constructor
  · rfl
  · rw [show (handle_connect_standalone 1 ⟨true, true, false⟩).1
        = [Frame.continueFrame 1 128, Frame.closeFrame 1 .serverRefused] from rfl]
    exact List.mem_cons_self ..

/-- C7 amended: the worker durable object emits CONTINUE(stream, 128)
only after the dial and stream setup succeed, registering the write
half, and on any dial/setup failure emits CLOSE(stream, ServerRefused)
with no CONTINUE ever sent; the standalone server instead emits
CONTINUE(stream, 128) immediately after validation and before the
dial, so on dial failure the stream receives CONTINUE followed by
CLOSE(ServerRefused) and is deregistered. -/
theorem wisp_connect_continue_ordering :
    (∀ (sid : Nat) (o : WorkerConnectOutcome),
      o.parseOk = true → o.validateOk = true →
      ((o.dialOk && o.readableOk && o.writableOk && o.writerOk) = true →
        handle_connect_worker sid o = ([.continueFrame sid 128], true)) ∧
      ((o.dialOk && o.readableOk && o.writableOk && o.writerOk) = false →
        handle_connect_worker sid o = ([.closeFrame sid .serverRefused], false) ∧
        Frame.continueFrame sid 128 ∉ (handle_connect_worker sid o).1)) ∧
    (∀ (sid : Nat) (o : ConnectOutcome),
      o.parseOk = true → o.validateOk = true →
      (o.dialOk = true →
        handle_connect_standalone sid o = ([.continueFrame sid 128], true)) ∧
      (o.dialOk = false →
        handle_connect_standalone sid o
          = ([.continueFrame sid 128, .closeFrame sid .serverRefused], false))) := by
  constructor
  · intro sid o hp hv
    obtain ⟨p, v, d, re, wa, wr⟩ := o
    simp only at hp hv
    subst hp
    subst hv
    cases d <;> cases re <;> cases wa <;> cases wr <;>
      simp [handle_connect_worker]
  · intro sid o hp hv
    obtain ⟨p, v, d⟩ := o
    simp only at hp hv
    subst hp
    subst hv
    cases d <;> simp [handle_connect_standalone]

/-- Witness for the amended C7 at concrete outcomes. -/
theorem wisp_connect_continue_ordering_witness :
    handle_connect_worker 1 ⟨true, true, true, true, true, true⟩
      = ([.continueFrame 1 128], true) ∧
    handle_connect_worker 1 ⟨true, true, false, true, true, true⟩
      = ([.closeFrame 1 .serverRefused], false) ∧
    handle_connect_standalone 1 ⟨true, true, true⟩
      = ([.continueFrame 1 128], true) :=
  ⟨(wisp_connect_continue_ordering.1 1 ⟨true, true, true, true, true, true⟩
      rfl rfl).1 rfl,
   ((wisp_connect_continue_ordering.1 1 ⟨true, true, false, true, true, true⟩
      rfl rfl).2 rfl).1,
   (wisp_connect_continue_ordering.2 1 ⟨true, true, true⟩ rfl rfl).1 rfl⟩

/-- C8 counterexample: in the standalone reverse relay a TCP read
error terminates the loop and the relay then sends
CLOSE(stream, Voluntary) — not CLOSE(stream, NetworkError) as the
claim states (`routes/wisp.rs` lines 138-155 send the same
Voluntary close after the loop however it ended). -/
theorem wisp_read_error_close_reason_counterexample :
    read_relay_standalone 1 [.readErr] = [.closeFrame 1 .voluntary] ∧
    Frame.closeFrame 1 .networkError ∉ read_relay_standalone 1 [.readErr] := by
  constructor
  · rfl
  · rw [show read_relay_standalone 1 [.readErr]
        = [Frame.closeFrame 1 CloseReason.voluntary] from rfl]
    intro h
    have := List.mem_singleton.mp h
    exact Frame.noConfusion this (fun _ hr => CloseReason.noConfusion hr)

/-- C8 amended: in the worker relay, EOF yields exactly one
CLOSE(stream, Voluntary) and a read error yields exactly one
CLOSE(stream, NetworkError), after the DATA frames for the preceding
chunks; the standalone relay instead emits CLOSE(stream, Voluntary)
on every loop termination — EOF, read error, or send failure — and
never emits CLOSE(stream, NetworkError), with at most one CLOSE per
relay run. -/
theorem wisp_read_relay_close_reasons :
    (∀ (sid : Nat) (chunks : List (List Nat)),
      read_relay_standalone sid
          (chunks.map (fun b => .chunk b true) ++ [.eof])
        = chunks.map (fun b => Frame.dataFrame sid b)
            ++ [.closeFrame sid .voluntary] ∧
      read_relay_standalone sid
          (chunks.map (fun b => .chunk b true) ++ [.readErr])
        = chunks.map (fun b => Frame.dataFrame sid b)
            ++ [.closeFrame sid .voluntary]) ∧
    (∀ (sid : Nat) (chunks : List (List Nat)), (∀ b ∈ chunks, b ≠ []) →
      read_relay_worker sid true
          (chunks.map (fun b => .chunk b true) ++ [.done])
        = chunks.map (fun b => Frame.dataFrame sid b)
            ++ [.closeFrame sid .voluntary] ∧
      read_relay_worker sid true
          (chunks.map (fun b => .chunk b true) ++ [.readErr])
        = chunks.map (fun b => Frame.dataFrame sid b)
            ++ [.closeFrame sid .networkError]) ∧
    (∀ (sid : Nat) (evs : List ReadEvent) (r : CloseReason),
      Frame.closeFrame sid r ∈ read_relay_standalone sid evs →
        r = .voluntary) ∧
    (∀ (sid : Nat) (evs : List ReadEvent),
      closeCount (read_relay_standalone sid evs) ≤ 1) := by
  refine ⟨?_, ?_, ?_, ?_⟩
  · intro sid chunks
    induction chunks with
    | nil => exact ⟨rfl, rfl⟩
    | cons b rest ih =>
      constructor
      · simp only [List.map_cons, List.cons_append]
        unfold read_relay_standalone
        rw [if_pos rfl, ih.1]
      · simp only [List.map_cons, List.cons_append]
        unfold read_relay_standalone
        rw [if_pos rfl, ih.2]
  · intro sid chunks
    have hco : ∀ evs, read_relay_worker sid true evs
        = read_relay_worker_loop sid evs := by
      intro evs
      unfold read_relay_worker
      rw [if_neg (by simp)]
    induction chunks with
    | nil =>
      intro _
      simp only [hco]
      exact ⟨rfl, rfl⟩
    | cons b rest ih =>
      intro hne
      have hb : ¬ b.isEmpty = true := by
        simp only [List.isEmpty_eq_true]
        exact hne b (List.mem_cons_self ..)
      have ih' := ih (fun x hx => hne x (List.mem_cons_of_mem _ hx))
      simp only [hco] at ih' ⊢
      constructor
      · simp only [List.map_cons, List.cons_append]
        unfold read_relay_worker_loop
        rw [if_neg hb, if_pos rfl, ih'.1]
      · simp only [List.map_cons, List.cons_append]
        unfold read_relay_worker_loop
        rw [if_neg hb, if_pos rfl, ih'.2]
  · intro sid evs r
    induction evs with
    | nil =>
      intro h
      exact absurd h (by simp [read_relay_standalone])
    | cons e rest ih =>
      intro h
      match e with
      | .eof =>
        unfold read_relay_standalone at h
        have hm := List.mem_singleton.mp h
        simp only [Frame.closeFrame.injEq] at hm
        exact hm.2
      | .readErr =>
        unfold read_relay_standalone at h
        have hm := List.mem_singleton.mp h
        simp only [Frame.closeFrame.injEq] at hm
        exact hm.2
      | .chunk p ok =>
        unfold read_relay_standalone at h
        rcases List.mem_cons.mp h with h' | h'
        · exact absurd h' (by intro hc; exact Frame.noConfusion hc)
        · match ok with
          | true => exact ih h'
          | false =>
            have hm := List.mem_singleton.mp h'
            simp only [Frame.closeFrame.injEq] at hm
            exact hm.2
  · intro sid evs
    induction evs with
    | nil => simp [read_relay_standalone, closeCount]
    | cons e rest ih =>
      match e with
      | .eof => simp [read_relay_standalone, closeCount]
      | .readErr => simp [read_relay_standalone, closeCount]
      | .chunk p ok =>
        unfold read_relay_standalone
        match ok with
        | true =>
          rw [if_pos rfl]
          unfold closeCount at ih ⊢
          simpa using ih
        | false =>
          rw [if_neg (by simp)]
          simp [closeCount]

/-- Witness for the amended C8 at a concrete one-chunk trace. -/
theorem wisp_read_relay_close_reasons_witness :
    read_relay_worker 7 true [.chunk [3] true, .readErr]
      = [.dataFrame 7 [3], .closeFrame 7 .networkError] ∧
    read_relay_standalone 7 [.chunk [3] true, .eof]
      = [.dataFrame 7 [3], .closeFrame 7 .voluntary] :=
  ⟨(wisp_read_relay_close_reasons.2.1 7 [[3]] (by simp)).2,
   (wisp_read_relay_close_reasons.1 7 [[3]]).1⟩

/-- Pruning empty parent directories never touches the file set. -/
theorem prune_files_unchanged (fs : DirFS) (base : List String)
    (d : List String) :
    (prune_empty_dirs fs base d).files = fs.files := by
  unfold prune_empty_dirs
  by_cases h1 : ¬ path_within_base d base ∨ d = base
  · rw [if_pos h1]
  · rw [if_neg h1]
    by_cases h2 : d = []
    · rw [dif_pos h2]
    · rw [dif_neg h2]
      by_cases h3 : d ∈ fs.dirs
      · rw [if_pos h3]
        by_cases h4 : fs.dirIsEmpty d
        · rw [if_pos h4]
          exact prune_files_unchanged _ base d.dropLast
        · rw [if_neg h4]
      · rw [if_neg h3]
termination_by d.length
decreasing_by
  cases d with
  | nil => exact absurd rfl h2
  | cons a as => simp [List.length_dropLast]

/-- Pruning never removes the packages base directory itself. -/
theorem prune_keeps_base (fs : DirFS) (base : List String) (d : List String) :
    base ∈ fs.dirs → base ∈ (prune_empty_dirs fs base d).dirs := by
  intro hb
  unfold prune_empty_dirs
  by_cases h1 : ¬ path_within_base d base ∨ d = base
  · rw [if_pos h1]
    exact hb
  · rw [if_neg h1]
    by_cases h2 : d = []
    · rw [dif_pos h2]
      exact hb
    · rw [dif_neg h2]
      by_cases h3 : d ∈ fs.dirs
      · rw [if_pos h3]
        by_cases h4 : fs.dirIsEmpty d
        · rw [if_pos h4]
          push_neg at h1
          refine prune_keeps_base _ base d.dropLast ?_
          simp only [List.mem_filter]
          refine ⟨hb, ?_⟩
          simp only [decide_eq_true_eq]
          exact fun he => h1.2 he.symm
        · rw [if_neg h4]
          exact hb
      · rw [if_neg h3]
        exact hb
termination_by d.length
decreasing_by
  cases d with
  | nil => exact absurd rfl h2
  | cons a as => simp [List.length_dropLast]

/-- Pruning only removes directories: the resulting directory set is
contained in the original one. -/
theorem prune_dirs_subset (fs : DirFS) (base : List String)
    (d : List String) :
    ∀ x, x ∈ (prune_empty_dirs fs base d).dirs → x ∈ fs.dirs := by
  intro x hx
  unfold prune_empty_dirs at hx
  by_cases h1 : ¬ path_within_base d base ∨ d = base
  · rw [if_pos h1] at hx
    exact hx
  · rw [if_neg h1] at hx
    by_cases h2 : d = []
    · rw [dif_pos h2] at hx
      exact hx
    · rw [dif_neg h2] at hx
      by_cases h3 : d ∈ fs.dirs
      · rw [if_pos h3] at hx
        by_cases h4 : fs.dirIsEmpty d
        · rw [if_pos h4] at hx
          have hrec := prune_dirs_subset _ base d.dropLast x hx
          exact (List.mem_filter.mp hrec).1
        · rw [if_neg h4] at hx
          exact hx
      · rw [if_neg h3] at hx
        exact hx
termination_by d.length
decreasing_by
  cases d with
  | nil => exact absurd rfl h2
  | cons a as => simp [List.length_dropLast]

/-- The pruning loop does remove its starting directory whenever that
directory lies inside the base, is not the base itself, exists, and
`read_dir` finds it empty: the first iteration deletes it, and the
remaining iterations only inspect its ancestors. -/
theorem prune_removes_empty_dir (fs : DirFS) (base : List String)
    (d : List String) :
    path_within_base d base = true → d ≠ base → d ∈ fs.dirs →
    fs.dirIsEmpty d = true →
    d ∉ (prune_empty_dirs fs base d).dirs := by
  intro hwithin hne hmem hempty
  have hdnil : d ≠ [] := by
    intro h0
    subst h0
    unfold path_within_base at hwithin
    cases hb : base with
    | nil => exact hne hb.symm
    | cons b bs =>
      rw [hb] at hwithin
      simp [List.isPrefixOf] at hwithin
  unfold prune_empty_dirs
  rw [if_neg (by simp [hwithin, hne])]
  rw [dif_neg hdnil, if_pos hmem, if_pos hempty]
  intro hcontra
  have hsub := prune_dirs_subset _ base d.dropLast d hcontra
  rw [List.mem_filter] at hsub
  simp at hsub

/-- C9: a successful `DELETE /api/packages/:id` (owner hash of at
least 8 bytes that matches, `file_path` set) removes the staged file
and prunes empty parents — the file's parent directory, when the
deletion leaves it empty, is removed, while the packages root never
is — but leaves the in-memory task map and the persisted `tasks.json`
contents untouched, so a subsequent `GET /api/downloads/:id` by the
owner still returns the sanitised task; `delete_task` (the handler of
`DELETE /api/downloads/:id`) instead removes the record and rewrites
the persisted snapshot. -/
theorem delete_package_frame_effect :
    ∀ (w : PkgWorld) (id : String) (hash : String) (packages_dir : String)
      (task : DownloadTask) (fp : String) (fe : String → Bool),
      8 ≤ hash.utf8ByteSize →
      w.tasks.find id = some task →
      task.account_hash = hash →
      task.file_path = some fp →
      (delete_package w id (some hash) packages_dir).1 = .ok () ∧
      (delete_package w id (some hash) packages_dir).2.tasks = w.tasks ∧
      (delete_package w id (some hash) packages_dir).2.tasks_json
        = w.tasks_json ∧
      (path_within_base (pathOf fp) (pathOf packages_dir) = true →
        pathOf fp ∈ w.fs.files →
        pathOf fp ∉ (delete_package w id (some hash) packages_dir).2.fs.files) ∧
      (pathOf packages_dir ∈ w.fs.dirs →
        pathOf packages_dir ∈
          (delete_package w id (some hash) packages_dir).2.fs.dirs) ∧
      get_download (delete_package w id (some hash) packages_dir).2.tasks id
          (some hash) fe
        = .ok (task.sanitize ((task.file_path.map fe).getD false)) ∧
      (delete_task w id packages_dir).tasks.find id = none ∧
      (delete_task w id packages_dir).tasks_json
        = persisted_snapshot (w.tasks.erase id) ∧
      (path_within_base (pathOf fp) (pathOf packages_dir) = true →
        pathOf fp ∈ w.fs.files →
        path_within_base ((pathOf fp).dropLast) (pathOf packages_dir) = true →
        (pathOf fp).dropLast ≠ pathOf packages_dir →
        (pathOf fp).dropLast ∈ w.fs.dirs →
        (w.fs.removeFile (pathOf fp)).dirIsEmpty ((pathOf fp).dropLast) = true →
        (pathOf fp).dropLast ∉
          (delete_package w id (some hash) packages_dir).2.fs.dirs) := by
  intro w id hash packages_dir task fp fe hlen hfind hown hfp
  have hred : delete_package w id (some hash) packages_dir
      = (.ok (), { w with fs := remove_staged_file w.fs fp packages_dir }) := by
    unfold delete_package
    dsimp only [Option.getD_some]
    rw [if_neg (by omega), hfind]
    dsimp only
    rw [if_neg (not_not_intro hown), hfp]
  refine ⟨by rw [hred], by rw [hred], by rw [hred], ?_, ?_, ?_, ?_, ?_, ?_⟩
  · intro hwithin hmem
    rw [hred]
    dsimp only
    unfold remove_staged_file
    rw [if_pos ⟨hwithin, hmem⟩]
    rw [prune_files_unchanged]
    unfold DirFS.removeFile
    simp only [List.mem_filter, decide_eq_true_eq]
    intro hc
    exact hc.2 rfl
  · intro hbase
    rw [hred]
    dsimp only
    unfold remove_staged_file
    by_cases hcond : path_within_base (pathOf fp) (pathOf packages_dir) = true ∧
        pathOf fp ∈ w.fs.files
    · rw [if_pos hcond]
      refine prune_keeps_base _ _ _ ?_
      unfold DirFS.removeFile
      exact hbase
    · rw [if_neg hcond]
      exact hbase
  · rw [hred]
    dsimp only
    unfold get_download require_account_hash verify_ownership
    simp only [Option.or_none, Option.getD_some]
    rw [if_neg (by omega), hfind]
    dsimp only
    rw [if_neg (not_not_intro hown)]
  · unfold delete_task
    dsimp only
    rw [TaskMap.find_erase, if_pos rfl]
  · unfold delete_task
    rfl
  · intro hwithin hmem hpwithin hpne hpdirs hpempty
    rw [hred]
    dsimp only
    unfold remove_staged_file
    rw [if_pos ⟨hwithin, hmem⟩]
    exact prune_removes_empty_dir _ _ _ hpwithin hpne hpdirs hpempty

/-- Witness for C9: a concrete world with one completed task whose
staged file sits in a per-account directory under the packages
root. -/
theorem delete_package_frame_effect_witness :
    (let task9 : DownloadTask :=
       { sampleTask with status := .completed,
                         file_path := some "/data/packages/abcdefgh/app.ipa" }
     let w9 : PkgWorld :=
       { tasks := [("task-1", task9)],
         fs := { files := [pathOf "/data/packages/abcdefgh/app.ipa"],
                 dirs := [pathOf "/data/packages",
                          pathOf "/data/packages/abcdefgh"] },
         tasks_json := [task9.to_persisted] }
     (delete_package w9 "task-1" (some "abcdefgh") "/data/packages").2.tasks
        = w9.tasks ∧
     (delete_package w9 "task-1" (some "abcdefgh") "/data/packages").2.tasks_json
        = w9.tasks_json ∧
     pathOf "/data/packages/abcdefgh/app.ipa" ∉
       (delete_package w9 "task-1" (some "abcdefgh") "/data/packages").2.fs.files ∧
     pathOf "/data/packages" ∈
       (delete_package w9 "task-1" (some "abcdefgh") "/data/packages").2.fs.dirs ∧
     (pathOf "/data/packages/abcdefgh/app.ipa").dropLast ∉
       (delete_package w9 "task-1" (some "abcdefgh") "/data/packages").2.fs.dirs ∧
     get_download
        (delete_package w9 "task-1" (some "abcdefgh") "/data/packages").2.tasks
        "task-1" (some "abcdefgh") (fun _ => false)
        = .ok (task9.sanitize false) ∧
     (delete_task w9 "task-1" "/data/packages").tasks.find "task-1" = none) := by
  have h := delete_package_frame_effect
    { tasks := [("task-1",
        { sampleTask with status := .completed,
                          file_path := some "/data/packages/abcdefgh/app.ipa" })],
      fs := { files := [pathOf "/data/packages/abcdefgh/app.ipa"],
              dirs := [pathOf "/data/packages", pathOf "/data/packages/abcdefgh"] },
      tasks_json :=
        [DownloadTask.to_persisted
          { sampleTask with status := .completed,
                            file_path := some "/data/packages/abcdefgh/app.ipa" }] }
    "task-1" "abcdefgh" "/data/packages"
    { sampleTask with status := .completed,
                      file_path := some "/data/packages/abcdefgh/app.ipa" }
    "/data/packages/abcdefgh/app.ipa" (fun _ => false)
    (by decide) (by rfl) rfl rfl
  exact ⟨h.2.1, h.2.2.1, h.2.2.2.1 (by decide) (by simp [pathOf]),
    h.2.2.2.2.1 (by simp [pathOf]),
    h.2.2.2.2.2.2.2.2 (by decide) (by simp [pathOf]) (by decide) (by decide)
      (by decide) (by decide),
    h.2.2.2.2.2.1, h.2.2.2.2.2.2.1⟩

end Asspp
